import Mathlib

/-!
Shallow embedding of the commit-verification core of the tendermint light
client excerpt: the `lite::Commit` implementation for
`block::signed_header::SignedHeader` (file `src/tendermint/src/lite_impl/signed_header.rs`)
together with the error taxonomy it reports through.

Machine integers (`u64`) are modelled as `Nat` with explicit reduction
modulo `2 ^ 64` at the one place the source performs `u64` addition.
Cryptographic capabilities (`sign_bytes`, `verify_signature`) are consumed
as abstract function parameters, exactly as the source consumes them from
its collaborators.
-/

set_option autoImplicit false

namespace TendermintLite

/-- Account addresses (`account::Id`), abstracted to `Nat`. -/
abbrev Address := Nat

/-- Hashes (`hash::Hash`), abstracted to `Nat`. -/
abbrev Hash := Nat

/-- Signatures, abstracted to `Nat`. -/
abbrev Signature := Nat

/-- Public keys, abstracted to `Nat`. -/
abbrev PubKey := Nat

/-- Byte strings (sign-bytes), abstracted to `List Nat`. -/
abbrev Bytes := List Nat

/-- The `u64` modulus: `signed_power` in `voting_power_in` is a `u64`. -/
def U64_MOD : Nat := 2 ^ 64

/-- A block id; `voting_power_in`/`validate` only consume its `hash` field. -/
structure BlockId where
  hash : Hash
  deriving DecidableEq, Repr

/-- A raw precommit vote, with the fields the verification core reads:
the signer's address, the signature, and the (optional) block id voted for.
Nil votes carry no block id. -/
structure Vote where
  validator_address : Address
  signature : Signature
  block_id : Option BlockId
  deriving DecidableEq, Repr

/-- `precommit.header_hash()`: the hash of the block id the vote attests to,
if any. -/
def Vote.header_hash (v : Vote) : Option Hash :=
  v.block_id.map BlockId.hash

/-- A validator: identity, public key, voting power (`u64`). -/
structure Validator where
  address : Address
  pub_key : PubKey
  voting_power : Nat
  deriving DecidableEq, Repr

/-- `val.power()`: the validator's voting power. -/
def Validator.power (v : Validator) : Nat := v.voting_power

/-- `validator::Set`: an ordered sequence of validators. -/
structure ValidatorSet where
  validators : List Validator
  deriving DecidableEq, Repr

/-- Modelled from the spec: `validator::Set` is not under `src/`; the spec
says it "Exposes `validator(address) -> Option<Validator>` (lookup)", an
address-indexed lookup into the ordered collection. -/
def ValidatorSet.validator (s : ValidatorSet) (val_id : Address) : Option Validator :=
  s.validators.find? (fun val => val.address == val_id)

/-- Specification helper: "the sum of the voting powers of all validators
in the given set" (the set's total voting power). -/
def ValidatorSet.total_power (s : ValidatorSet) : Nat :=
  (s.validators.map Validator.power).sum

/-- The block header; the verification core only reads its `chain_id`. -/
structure Header where
  chain_id : String
  deriving DecidableEq, Repr

/-- A commit: the committed block id plus one optional precommit per slot. -/
structure Commit where
  block_id : BlockId
  precommits : List (Option Vote)
  deriving DecidableEq, Repr

/-- `block::signed_header::SignedHeader`: a header plus its commit. -/
structure SignedHeader where
  header : Header
  commit : Commit
  deriving DecidableEq, Repr

/-- `vote::SignedVote`: a vote enriched with the chain id, signer address
and signature, as constructed by `SignedHeader::iter`. -/
structure SignedVote where
  vote : Vote
  chain_id : String
  validator_address : Address
  signature : Signature
  deriving DecidableEq, Repr

/-- `SignedVote::validator_id()`. -/
def SignedVote.validator_id (sv : SignedVote) : Address := sv.validator_address

/-- Modelled from the spec: the cryptographic capabilities consumed by the
core, "`sign_bytes(vote) -> bytes`, `verify(pubkey, msg, sig) -> bool`"
(canonical chain-id-bound serialization and signature verification; their
implementations are out of scope). -/
structure Crypto where
  sign_bytes : String → Vote → Bytes
  verify : PubKey → Bytes → Signature → Bool

/-- `vote.sign_bytes()`: canonical sign-bytes of the vote, bound to the
chain id the `SignedVote` was constructed with. -/
def SignedVote.sign_bytes (sv : SignedVote) (C : Crypto) : Bytes :=
  C.sign_bytes sv.chain_id sv.vote

/-- `val.verify_signature(msg, sig)`: verification against the validator's
public key. -/
def Validator.verify_signature (val : Validator) (C : Crypto) (msg : Bytes)
    (sig : Signature) : Bool :=
  C.verify val.pub_key msg sig

/-- Modelled from the spec: `lite::error::Kind` is not under `src/`; the
spec lists the light-client-specific kinds "`ImplementationSpecific`
(free-form message) and `FaultyValidator { address }` (structured
evidence)". -/
inductive Kind where
  | implementationSpecific
  | faultyValidator (address : Address)
  deriving DecidableEq, Repr

/-- Modelled from the spec: the error wrapper pairs a kind with an optional
free-text message (`Error::new(kind, optional_message)`); `Kind.into()`
attaches no message, the `fail!` macro attaches the formatted message. -/
structure Error where
  kind : Kind
  msg : Option String
  deriving DecidableEq, Repr

/-- The `fail!` message of the bad-signature abort in `voting_power_in`
(Debug formatting rendered through `toString`/`reprStr`). -/
def could_not_verify_msg (sig : Signature) (val : Validator) (sign_bytes : Bytes) : String :=
  "Couldn\x27t verify signature " ++ toString sig ++ " with validator " ++
    reprStr val ++ " on sign_bytes " ++ toString sign_bytes

/-- The `fail!` message of the length-mismatch abort in `validate`,
naming both lengths. -/
def precommit_length_msg (precommit_len val_len : Nat) : String :=
  "pre-commit length: " ++ toString precommit_len ++
    " doesn\x27t match validator length: " ++ toString val_len

/-- The `fail!` message of the wrong-header abort in `validate`, naming the
validator address, the header hash voted for, and the current header hash. -/
def wrong_header_msg (address : Address) (voted current : Hash) : String :=
  "validator(" ++ toString address ++ ") voted for header " ++ toString voted ++
    ", but current header is " ++ toString current

/-- `Commit::header_hash()` for `SignedHeader`: `self.commit.block_id.hash`. -/
def SignedHeader.header_hash (sh : SignedHeader) : Hash :=
  sh.commit.block_id.hash

/-- `vote::SignedVote::new((&vote).into(), &chain_id, vote.validator_address, vote.signature)`:
the construction performed inside `SignedHeader::iter()`. -/
def mk_signed_vote (chain_id : String) (vote : Vote) : SignedVote :=
  { vote := vote, chain_id := chain_id,
    validator_address := vote.validator_address, signature := vote.signature }

/-- `SignedHeader::iter()`: the commit's precommits, each present vote
paired with the header's chain id, the voter's address and signature. -/
def SignedHeader.iter (sh : SignedHeader) : List (Option SignedVote) :=
  sh.commit.precommits.map (fun opt => opt.map (mk_signed_vote sh.header.chain_id))

/-- The vote loop of `voting_power_in`, with `signed_power` the running
`u64` accumulator: skip absent/nil votes, skip unknown signers, abort on a
bad signature from a known signer, otherwise add the validator's power. -/
def voting_power_loop (C : Crypto) (validators : ValidatorSet) :
    Nat → List (Option SignedVote) → Except Error Nat
  | signed_power, [] => .ok signed_power
  | signed_power, vote_opt :: rest =>
    match vote_opt with
    | none => voting_power_loop C validators signed_power rest
    | some vote =>
      match validators.validator vote.validator_id with
      | none => voting_power_loop C validators signed_power rest
      | some val =>
        let sign_bytes := vote.sign_bytes C
        if ! val.verify_signature C sign_bytes vote.signature then
          .error ⟨Kind.implementationSpecific,
            some (could_not_verify_msg vote.signature val sign_bytes)⟩
        else
          voting_power_loop C validators ((signed_power + val.power) % U64_MOD) rest

/-- `Commit::voting_power_in(validators)`: accumulate the power of known
validators whose precommit signature verifies; see `voting_power_loop`. -/
def SignedHeader.voting_power_in (sh : SignedHeader) (C : Crypto)
    (validators : ValidatorSet) : Except Error Nat :=
  voting_power_loop C validators 0 sh.iter

/-- The per-precommit body of `validate`'s loop: the wrong-header check
(when the vote carries a header hash), then the known-signer check. -/
def SignedHeader.check_precommit (sh : SignedHeader) (vals : ValidatorSet)
    (precommit : Vote) : Except Error Unit :=
  match precommit.header_hash with
  | some header_hash =>
    if header_hash ≠ sh.header_hash then
      .error ⟨Kind.implementationSpecific,
        some (wrong_header_msg precommit.validator_address header_hash sh.header_hash)⟩
    else
      match vals.validator precommit.validator_address with
      | none => .error ⟨Kind.faultyValidator precommit.validator_address, none⟩
      | some _ => .ok ()
  | none =>
    match vals.validator precommit.validator_address with
    | none => .error ⟨Kind.faultyValidator precommit.validator_address, none⟩
    | some _ => .ok ()

/-- The precommit loop of `validate`: absent votes pass, present votes go
through `check_precommit`, the first failure aborts. -/
def validate_loop (sh : SignedHeader) (vals : ValidatorSet) :
    List (Option Vote) → Except Error Unit
  | [] => .ok ()
  | precommit_opt :: rest =>
    match precommit_opt with
    | some precommit =>
      match sh.check_precommit vals precommit with
      | .error e => .error e
      | .ok _ => validate_loop sh vals rest
    | none => validate_loop sh vals rest

/-- `Commit::validate(vals)`: the length check, then the precommit loop. -/
def SignedHeader.validate (sh : SignedHeader) (vals : ValidatorSet) :
    Except Error Unit :=
  if sh.commit.precommits.length ≠ vals.validators.length then
    .error ⟨Kind.implementationSpecific,
      some (precommit_length_msg sh.commit.precommits.length vals.validators.length)⟩
  else
    validate_loop sh vals sh.commit.precommits

/-- Specification helper: the powers contributed by the non-nil precommits
whose signer is found in the set, per vote and in slot order. -/
def known_powers (vals : ValidatorSet) (precommits : List (Option Vote)) : List Nat :=
  ((precommits.filterMap id).filterMap
    (fun v => vals.validator v.validator_address)).map Validator.power

/-- Specification helper: the sum of the known signers' voting powers over
the non-nil precommits, one contribution per vote. -/
def known_power_sum (vals : ValidatorSet) (precommits : List (Option Vote)) : Nat :=
  (known_powers vals precommits).sum

/-- Specification helper, `SignedVote` level: powers of the found signers. -/
def sv_known_powers (vals : ValidatorSet) (votes : List (Option SignedVote)) : List Nat :=
  ((votes.filterMap id).filterMap (fun sv => vals.validator sv.validator_id)).map
    Validator.power

/-- Specification helper: the precommit votes for the correct header, i.e.
its referenced header hash (when it carries one) equals the signed header's
own hash. -/
def precommit_hash_ok (sh : SignedHeader) (v : Vote) : Bool :=
  v.header_hash.all (fun h => h == sh.header_hash)

/-- Specification helper: a precommit that passes both structural checks of
`validate`: correct header hash and signer present in the set. -/
def precommit_ok (sh : SignedHeader) (vals : ValidatorSet) (v : Vote) : Bool :=
  precommit_hash_ok sh v && (vals.validator v.validator_address).isSome

/-! ### Concrete fixtures used by witnesses and counterexamples -/

/-- A crypto capability under which every signature verifies. -/
def all_ok_crypto : Crypto := ⟨fun _ _ => [], fun _ _ _ => true⟩

/-- A crypto capability under which exactly the signatures equal to `1`
verify (so signature `0` is a tampered/invalid signature). -/
def sig_one_crypto : Crypto := ⟨fun _ _ => [], fun _ _ sig => sig == 1⟩

/-- Validator A: address 1, power 10. -/
def valA : Validator := ⟨1, 101, 10⟩

/-- Validator B: address 2, power 20. -/
def valB : Validator := ⟨2, 102, 20⟩

/-- The validator set `[A(power=10), B(power=20)]`. -/
def setAB : ValidatorSet := ⟨[valA, valB]⟩

/-- A valid vote by A for header hash 7 (signature 1 verifies under
`sig_one_crypto`). -/
def voteA : Vote := ⟨1, 1, some ⟨7⟩⟩

/-- A valid vote by B for header hash 7. -/
def voteB : Vote := ⟨2, 1, some ⟨7⟩⟩

/-- A vote by A for header hash 7 with a tampered signature (0 does not
verify under `sig_one_crypto`). -/
def voteA_bad : Vote := ⟨1, 0, some ⟨7⟩⟩

/-- A vote by the unknown address 9 (not in `setAB`). -/
def voteC : Vote := ⟨9, 1, some ⟨7⟩⟩

/-- A signed header at hash 7 with commit `[Some(vote by A), None]`. -/
def shAB : SignedHeader := ⟨⟨"chain"⟩, ⟨⟨7⟩, [some voteA, none]⟩⟩

/-- A signed header whose commit holds a tampered vote by A and a valid
vote by B. -/
def sh_tampered : SignedHeader := ⟨⟨"chain"⟩, ⟨⟨7⟩, [some voteA_bad, some voteB]⟩⟩

/-- A signed header whose commit holds the same vote by A twice. -/
def sh_dup : SignedHeader := ⟨⟨"chain"⟩, ⟨⟨7⟩, [some voteA, some voteA]⟩⟩

/-- The one-validator set `[A(power=10)]`. -/
def setA : ValidatorSet := ⟨[valA]⟩

/-- Two validators holding `2 ^ 63` voting power each (legal `u64` values
whose sum reaches `2 ^ 64`). -/
def set_huge : ValidatorSet := ⟨[⟨1, 101, 2 ^ 63⟩, ⟨2, 102, 2 ^ 63⟩]⟩

/-- A signed header whose commit holds valid votes by both huge-power
validators. -/
def sh_huge : SignedHeader := ⟨⟨"chain"⟩, ⟨⟨7⟩, [some voteA, some voteB]⟩⟩

/-! ### Basic lemmas about the embedding -/

theorem U64_MOD_pos : 0 < U64_MOD := by
  norm_num [U64_MOD]

@[simp]
theorem sv_known_powers_nil (vals : ValidatorSet) : sv_known_powers vals [] = [] := rfl

@[simp]
theorem sv_known_powers_none (vals : ValidatorSet) (rest : List (Option SignedVote)) :
    sv_known_powers vals (none :: rest) = sv_known_powers vals rest := by
  simp [sv_known_powers]

theorem sv_known_powers_unknown (vals : ValidatorSet) (sv : SignedVote)
    (rest : List (Option SignedVote)) (h : vals.validator sv.validator_id = none) :
    sv_known_powers vals (some sv :: rest) = sv_known_powers vals rest := by
  simp [sv_known_powers, h]

theorem sv_known_powers_known (vals : ValidatorSet) (sv : SignedVote) (val : Validator)
    (rest : List (Option SignedVote)) (h : vals.validator sv.validator_id = some val) :
    sv_known_powers vals (some sv :: rest) = val.power :: sv_known_powers vals rest := by
  simp [sv_known_powers, h]

/-- When every known signer's signature verifies, the vote loop succeeds
with the accumulated (mod `2 ^ 64`) power of the found signers. -/
theorem voting_power_loop_all_ok (C : Crypto) (vals : ValidatorSet) :
    ∀ (votes : List (Option SignedVote)) (acc : Nat), acc < U64_MOD →
    (∀ sv val, some sv ∈ votes → vals.validator sv.validator_id = some val →
      val.verify_signature C (sv.sign_bytes C) sv.signature = true) →
    voting_power_loop C vals acc votes =
      .ok ((acc + (sv_known_powers vals votes).sum) % U64_MOD) := by
  intro votes
  induction votes with
  | nil =>
    intro acc hacc _
    simp [voting_power_loop, Nat.mod_eq_of_lt hacc]
  | cons vo rest ih =>
    intro acc hacc hver
    match vo with
    | none =>
      simp only [voting_power_loop, sv_known_powers_none]
      exact ih acc hacc (fun sv val hm hl => hver sv val (List.mem_cons_of_mem _ hm) hl)
    | some sv =>
      cases hval : vals.validator sv.validator_id with
      | none =>
        simp only [voting_power_loop, hval, sv_known_powers_unknown vals sv rest hval]
        exact ih acc hacc (fun sv' val hm hl => hver sv' val (List.mem_cons_of_mem _ hm) hl)
      | some val =>
        have hv : val.verify_signature C (sv.sign_bytes C) sv.signature = true :=
          hver sv val (List.mem_cons_self _ _) hval
        simp only [voting_power_loop, hval, hv, Bool.not_true, Bool.false_eq_true,
          if_false, sv_known_powers_known vals sv val rest hval, List.sum_cons]
        rw [ih ((acc + val.power) % U64_MOD) (Nat.mod_lt _ U64_MOD_pos)
          (fun sv' val' hm hl => hver sv' val' (List.mem_cons_of_mem _ hm) hl)]
        rw [Nat.mod_add_mod, Nat.add_assoc]

/-- Whatever value the vote loop returns is the accumulated (mod `2 ^ 64`)
power of the found signers. -/
theorem voting_power_loop_ok_val (C : Crypto) (vals : ValidatorSet) :
    ∀ (votes : List (Option SignedVote)) (acc n : Nat), acc < U64_MOD →
    voting_power_loop C vals acc votes = .ok n →
    n = (acc + (sv_known_powers vals votes).sum) % U64_MOD := by
  intro votes
  induction votes with
  | nil =>
    intro acc n hacc hok
    simp only [voting_power_loop] at hok
    cases hok
    simp [Nat.mod_eq_of_lt hacc]
  | cons vo rest ih =>
    intro acc n hacc hok
    match vo with
    | none =>
      simp only [voting_power_loop] at hok
      simpa using ih acc n hacc hok
    | some sv =>
      cases hval : vals.validator sv.validator_id with
      | none =>
        simp only [voting_power_loop, hval] at hok
        rw [sv_known_powers_unknown vals sv rest hval]
        exact ih acc n hacc hok
      | some val =>
        cases hv : val.verify_signature C (sv.sign_bytes C) sv.signature with
        | false =>
          simp [voting_power_loop, hval, hv] at hok
        | true =>
          simp only [voting_power_loop, hval, hv, Bool.not_true, Bool.false_eq_true,
            if_false] at hok
          rw [sv_known_powers_known vals sv val rest hval, List.sum_cons]
          rw [ih ((acc + val.power) % U64_MOD) n (Nat.mod_lt _ U64_MOD_pos) hok]
          rw [Nat.mod_add_mod, Nat.add_assoc]

/-- Every error the vote loop can produce has kind
`ImplementationSpecific`. -/
theorem voting_power_loop_err_kind (C : Crypto) (vals : ValidatorSet) :
    ∀ (votes : List (Option SignedVote)) (acc : Nat) (e : Error),
    voting_power_loop C vals acc votes = .error e → e.kind = Kind.implementationSpecific := by
  intro votes
  induction votes with
  | nil =>
    intro acc e h
    simp [voting_power_loop] at h
  | cons vo rest ih =>
    intro acc e h
    match vo with
    | none =>
      simp only [voting_power_loop] at h
      exact ih acc e h
    | some sv =>
      cases hval : vals.validator sv.validator_id with
      | none =>
        simp only [voting_power_loop, hval] at h
        exact ih acc e h
      | some val =>
        cases hv : val.verify_signature C (sv.sign_bytes C) sv.signature with
        | false =>
          simp only [voting_power_loop, hval, hv, Bool.not_false, if_true] at h
          cases h
          rfl
        | true =>
          simp only [voting_power_loop, hval, hv, Bool.not_true, Bool.false_eq_true,
            if_false] at h
          exact ih _ e h

/-- A known signer with a signature that does not verify makes the vote
loop abort with an error, wherever it sits in the list. -/
theorem voting_power_loop_abort (C : Crypto) (vals : ValidatorSet) :
    ∀ (votes : List (Option SignedVote)) (acc : Nat) (sv : SignedVote) (val : Validator),
    some sv ∈ votes → vals.validator sv.validator_id = some val →
    val.verify_signature C (sv.sign_bytes C) sv.signature = false →
    ∃ e, voting_power_loop C vals acc votes = .error e := by
  intro votes
  induction votes with
  | nil =>
    intro acc sv val hmem
    simp at hmem
  | cons vo rest ih =>
    intro acc sv val hmem hval hbad
    rcases List.mem_cons.mp hmem with heq | hmem'
    · subst heq
      cases hv : vals.validator sv.validator_id with
      | none => rw [hval] at hv; cases hv
      | some val' =>
        rw [hval] at hv
        cases hv
        simp only [voting_power_loop, hval, hbad, Bool.not_false, if_true]
        exact ⟨_, rfl⟩
    · match vo with
      | none =>
        simp only [voting_power_loop]
        exact ih acc sv val hmem' hval hbad
      | some sv' =>
        cases hval' : vals.validator sv'.validator_id with
        | none =>
          simp only [voting_power_loop, hval']
          exact ih acc sv val hmem' hval hbad
        | some val' =>
          cases hv' : val'.verify_signature C (sv'.sign_bytes C) sv'.signature with
          | false =>
            simp only [voting_power_loop, hval', hv', Bool.not_false, if_true]
            exact ⟨_, rfl⟩
          | true =>
            simp only [voting_power_loop, hval', hv', Bool.not_true, Bool.false_eq_true,
              if_false]
            exact ih _ sv val hmem' hval hbad

@[simp]
theorem known_powers_nil (vals : ValidatorSet) : known_powers vals [] = [] := rfl

@[simp]
theorem known_powers_none (vals : ValidatorSet) (rest : List (Option Vote)) :
    known_powers vals (none :: rest) = known_powers vals rest := by
  simp [known_powers]

theorem known_powers_unknown (vals : ValidatorSet) (v : Vote) (rest : List (Option Vote))
    (h : vals.validator v.validator_address = none) :
    known_powers vals (some v :: rest) = known_powers vals rest := by
  simp [known_powers, h]

theorem known_powers_known (vals : ValidatorSet) (v : Vote) (val : Validator)
    (rest : List (Option Vote)) (h : vals.validator v.validator_address = some val) :
    known_powers vals (some v :: rest) = val.power :: known_powers vals rest := by
  simp [known_powers, h]

/-- `validator_id` of a reconstructed `SignedVote` is the raw vote's
signer address. -/
@[simp]
theorem mk_signed_vote_validator_id (cid : String) (v : Vote) :
    (mk_signed_vote cid v).validator_id = v.validator_address := rfl

/-- The found-signer powers of the reconstructed signed votes are those of
the raw precommits. -/
theorem sv_known_powers_map (vals : ValidatorSet) (cid : String) :
    ∀ pcs : List (Option Vote),
    sv_known_powers vals (pcs.map (Option.map (mk_signed_vote cid))) = known_powers vals pcs := by
  intro pcs
  induction pcs with
  | nil => rfl
  | cons pc rest ih =>
    match pc with
    | none =>
      simpa using ih
    | some v =>
      cases hval : vals.validator v.validator_address with
      | none =>
        rw [List.map_cons, Option.map_some', sv_known_powers_unknown _ _ _ hval,
          known_powers_unknown _ _ _ hval, ih]
      | some val =>
        rw [List.map_cons, Option.map_some', sv_known_powers_known _ _ val _ hval,
          known_powers_known _ _ val _ hval, ih]

/-- When every known signer's precommit signature verifies,
`voting_power_in` succeeds with the per-vote sum of the found signers'
powers, reduced modulo `2 ^ 64`. -/
theorem voting_power_in_ok_char (C : Crypto) (sh : SignedHeader) (vals : ValidatorSet)
    (hver : ∀ v val, some v ∈ sh.commit.precommits →
      vals.validator v.validator_address = some val →
      val.verify_signature C ((mk_signed_vote sh.header.chain_id v).sign_bytes C)
        v.signature = true) :
    sh.voting_power_in C vals = .ok (known_power_sum vals sh.commit.precommits % U64_MOD) := by
  unfold SignedHeader.voting_power_in SignedHeader.iter
  rw [voting_power_loop_all_ok C vals _ 0 U64_MOD_pos]
  · rw [sv_known_powers_map, Nat.zero_add]
    rfl
  · intro sv val hmem hval
    rcases List.mem_map.mp hmem with ⟨o, ho, hmap⟩
    match o with
    | none => simp at hmap
    | some v =>
      rw [Option.map_some'] at hmap
      cases hmap
      exact hver v val ho hval

/-- Any value a successful `voting_power_in` call returns is the per-vote
sum of the found signers' powers, reduced modulo `2 ^ 64`. -/
theorem voting_power_in_ok_val (C : Crypto) (sh : SignedHeader) (vals : ValidatorSet)
    (n : Nat) (hok : sh.voting_power_in C vals = .ok n) :
    n = known_power_sum vals sh.commit.precommits % U64_MOD := by
  unfold SignedHeader.voting_power_in SignedHeader.iter at hok
  have := voting_power_loop_ok_val C vals _ 0 n U64_MOD_pos hok
  rwa [sv_known_powers_map, Nat.zero_add] at this

/-- Erasing an element the predicate rejects does not change `find?`. -/
theorem find?_erase_of_neg (p : Validator → Bool) (v : Validator) (hp : p v = false) :
    ∀ l : List Validator, (l.erase v).find? p = l.find? p := by
  intro l
  induction l with
  | nil => rfl
  | cons x l ih =>
    rw [List.erase_cons]
    by_cases hx : x = v
    · subst hx
      simp [List.find?_cons, hp]
    · have hbeq : (x == v) = false := beq_eq_false_iff_ne.mpr hx
      simp only [hbeq, Bool.false_eq_true, if_false]
      cases hpx : p x <;> simp [List.find?_cons, hpx, ih]

/-- Looking up a list of pairwise-distinct addresses in a validator list
finds validators whose powers sum to at most the whole list's power. -/
theorem powers_lookup_sum_le :
    ∀ as : List Address, as.Nodup → ∀ vs : List Validator,
    (((as.filterMap (fun a => vs.find? (fun val => val.address == a))).map
      Validator.power).sum) ≤ (vs.map Validator.power).sum := by
  intro as
  induction as with
  | nil =>
    intro _ vs
    simp
  | cons a as ih =>
    intro hnd vs
    obtain ⟨hna, hnd'⟩ := List.nodup_cons.mp hnd
    cases hf : vs.find? (fun val => val.address == a) with
    | none =>
      simp only [List.filterMap_cons, hf]
      exact ih hnd' vs
    | some v =>
      have hv_mem : v ∈ vs := List.mem_of_find?_eq_some hf
      have hv_addr : v.address = a := by
        have := List.find?_some hf
        simpa using this
      simp only [List.filterMap_cons, hf, List.map_cons, List.sum_cons]
      have hcongr : as.filterMap (fun b => vs.find? (fun val => val.address == b)) =
          as.filterMap (fun b => (vs.erase v).find? (fun val => val.address == b)) := by
        apply List.filterMap_congr
        intro b hb
        have hab : a ≠ b := fun h => hna (h ▸ hb)
        have hpv : (v.address == b) = false :=
          beq_eq_false_iff_ne.mpr (fun h => hab (hv_addr ▸ h))
        exact (find?_erase_of_neg _ v hpv vs).symm
      rw [hcongr]
      have htot : (vs.map Validator.power).sum =
          v.power + ((vs.erase v).map Validator.power).sum := by
        have hperm : vs.Perm (v :: vs.erase v) := List.perm_cons_erase hv_mem
        rw [(hperm.map Validator.power).sum_eq, List.map_cons, List.sum_cons]
      rw [htot]
      exact Nat.add_le_add_left (ih hnd' (vs.erase v)) v.power

/-- `known_powers` through the signer-address projection. -/
theorem known_powers_eq_addr (vals : ValidatorSet) (pcs : List (Option Vote)) :
    known_powers vals pcs =
      (((pcs.filterMap id).map Vote.validator_address).filterMap
        (fun a => vals.validators.find? (fun val => val.address == a))).map
          Validator.power := by
  unfold known_powers ValidatorSet.validator
  rw [List.filterMap_map]
  rfl

/-- When the non-nil precommits' signer addresses are pairwise distinct,
the per-vote sum of the found signers' powers is bounded by the set's
total voting power. -/
theorem known_power_sum_le_total (vals : ValidatorSet) (pcs : List (Option Vote))
    (hnodup : ((pcs.filterMap id).map Vote.validator_address).Nodup) :
    known_power_sum vals pcs ≤ vals.total_power := by
  rw [known_power_sum, known_powers_eq_addr]
  exact powers_lookup_sum_le _ hnodup vals.validators

/-- A structurally fine precommit passes `check_precommit`. -/
theorem check_precommit_ok (sh : SignedHeader) (vals : ValidatorSet) (v : Vote)
    (h : precommit_ok sh vals v = true) : sh.check_precommit vals v = .ok () := by
  obtain ⟨hh, hs⟩ := Bool.and_eq_true_iff.mp h
  obtain ⟨val, hval⟩ := Option.isSome_iff_exists.mp hs
  unfold SignedHeader.check_precommit
  cases hhh : v.header_hash with
  | none => simp [hval]
  | some hsh =>
    have hEq : hsh = sh.header_hash := by
      rw [precommit_hash_ok, hhh] at hh
      simpa using hh
    simp [hEq, hval]

/-- A precommit that votes for a different header hash makes
`check_precommit` fail with the wrong-header error. -/
theorem check_precommit_wrong_header (sh : SignedHeader) (vals : ValidatorSet) (v : Vote)
    (h : Hash) (hhh : v.header_hash = some h) (hne : h ≠ sh.header_hash) :
    sh.check_precommit vals v = .error ⟨Kind.implementationSpecific,
      some (wrong_header_msg v.validator_address h sh.header_hash)⟩ := by
  unfold SignedHeader.check_precommit
  simp [hhh, hne]

/-- A precommit whose header hash is fine but whose signer is absent makes
`check_precommit` fail with the faulty-validator error. -/
theorem check_precommit_faulty (sh : SignedHeader) (vals : ValidatorSet) (v : Vote)
    (hh : precommit_hash_ok sh v = true)
    (hs : vals.validator v.validator_address = none) :
    sh.check_precommit vals v = .error ⟨Kind.faultyValidator v.validator_address, none⟩ := by
  unfold SignedHeader.check_precommit
  cases hhh : v.header_hash with
  | none => simp [hs]
  | some hsh =>
    have hEq : hsh = sh.header_hash := by
      rw [precommit_hash_ok, hhh] at hh
      simpa using hh
    simp [hEq, hs]

/-- A prefix of precommits that all pass `check_precommit` is skipped by
the `validate` loop. -/
theorem validate_loop_append_ok (sh : SignedHeader) (vals : ValidatorSet) :
    ∀ (pre rest : List (Option Vote)),
    (∀ w, some w ∈ pre → sh.check_precommit vals w = .ok ()) →
    validate_loop sh vals (pre ++ rest) = validate_loop sh vals rest := by
  intro pre
  induction pre with
  | nil => intro rest _; rfl
  | cons pc pre ih =>
    intro rest hok
    match pc with
    | none =>
      rw [List.cons_append]
      simp only [validate_loop]
      exact ih rest (fun w hw => hok w (List.mem_cons_of_mem _ hw))
    | some w =>
      rw [List.cons_append]
      simp only [validate_loop, hok w (List.mem_cons_self _ _)]
      exact ih rest (fun w' hw => hok w' (List.mem_cons_of_mem _ hw))

/-- If some non-nil precommit fails `check_precommit`, the `validate` loop
fails (with that or an earlier error). -/
theorem validate_loop_err_of_mem (sh : SignedHeader) (vals : ValidatorSet) :
    ∀ (pcs : List (Option Vote)) (v : Vote) (ev : Error),
    some v ∈ pcs → sh.check_precommit vals v = .error ev →
    ∃ e, validate_loop sh vals pcs = .error e := by
  intro pcs
  induction pcs with
  | nil =>
    intro v ev hmem
    simp at hmem
  | cons pc rest ih =>
    intro v ev hmem hbad
    rcases List.mem_cons.mp hmem with heq | hmem'
    · subst heq
      simp only [validate_loop, hbad]
      exact ⟨ev, rfl⟩
    · match pc with
      | none =>
        simp only [validate_loop]
        exact ih v ev hmem' hbad
      | some w =>
        cases hcw : sh.check_precommit vals w with
        | error e =>
          simp only [validate_loop, hcw]
          exact ⟨e, rfl⟩
        | ok u =>
          cases u
          simp only [validate_loop, hcw]
          exact ih v ev hmem' hbad

/-- When the lengths match, `validate` is its precommit loop. -/
theorem validate_eq_loop (sh : SignedHeader) (vals : ValidatorSet)
    (hlen : sh.commit.precommits.length = vals.validators.length) :
    sh.validate vals = validate_loop sh vals sh.commit.precommits := by
  unfold SignedHeader.validate
  rw [if_neg (by simpa using hlen)]

/-- Two optional votes that agree on everything except the signature:
both absent, or both present with the same signer address and block id. -/
def vote_same_except_sig : Option Vote → Option Vote → Prop
  | none, none => True
  | some v, some w => v.validator_address = w.validator_address ∧ v.block_id = w.block_id
  | _, _ => False

/-- `check_precommit` reads only the signer address and the block id of a
vote, and only the header hash of the signed header. -/
theorem check_precommit_sig_irrelevant (sh sh' : SignedHeader) (vals : ValidatorSet)
    (v w : Vote) (hh : sh.header_hash = sh'.header_hash)
    (haddr : v.validator_address = w.validator_address) (hbid : v.block_id = w.block_id) :
    sh.check_precommit vals v = sh'.check_precommit vals w := by
  unfold SignedHeader.check_precommit
  rw [Vote.header_hash, Vote.header_hash, hbid, haddr, hh]

/-- The `validate` loop ignores signatures. -/
theorem validate_loop_sig_irrelevant (sh sh' : SignedHeader) (vals : ValidatorSet)
    (hh : sh.header_hash = sh'.header_hash) :
    ∀ (pcs pcs' : List (Option Vote)), List.Forall₂ vote_same_except_sig pcs pcs' →
    validate_loop sh vals pcs = validate_loop sh' vals pcs' := by
  intro pcs pcs' hrel
  induction hrel with
  | nil => rfl
  | cons hpair hrel ih =>
    rename_i pc pc' rest rest'
    match pc, pc' with
    | none, none =>
      simpa only [validate_loop] using ih
    | none, some w => exact absurd hpair (by simp [vote_same_except_sig])
    | some v, none => exact absurd hpair (by simp [vote_same_except_sig])
    | some v, some w =>
      obtain ⟨haddr, hbid⟩ := hpair
      have hc := check_precommit_sig_irrelevant sh sh' vals v w hh haddr hbid
      simp only [validate_loop, hc]
      cases sh'.check_precommit vals w with
      | error e => rfl
      | ok u => exact ih

/-- The vote loop treats a non-nil vote from an unknown signer exactly as
an absent vote: it contributes nothing, fails nothing and its signature is
never consulted. -/
theorem voting_power_loop_skip_unknown (C : Crypto) (vals : ValidatorSet)
    (sv : SignedVote) (hunk : vals.validator sv.validator_id = none) :
    ∀ (pre suf : List (Option SignedVote)) (acc : Nat),
    voting_power_loop C vals acc (pre ++ some sv :: suf) =
      voting_power_loop C vals acc (pre ++ none :: suf) := by
  intro pre
  induction pre with
  | nil =>
    intro suf acc
    simp only [List.nil_append, voting_power_loop, hunk]
  | cons vo pre ih =>
    intro suf acc
    rw [List.cons_append, List.cons_append]
    match vo with
    | none =>
      simp only [voting_power_loop]
      exact ih suf acc
    | some sv' =>
      cases hval' : vals.validator sv'.validator_id with
      | none =>
        simp only [voting_power_loop, hval']
        exact ih suf acc
      | some val' =>
        cases hv' : val'.verify_signature C (sv'.sign_bytes C) sv'.signature with
        | false =>
          simp only [voting_power_loop, hval', hv', Bool.not_false, if_true]
        | true =>
          simp only [voting_power_loop, hval', hv', Bool.not_true, Bool.false_eq_true,
            if_false]
          exact ih suf _

/-! ### Further fixtures -/

/-- A signed header with a tampered vote by A replaced by a valid one. -/
def sh_ok : SignedHeader := ⟨⟨"chain"⟩, ⟨⟨7⟩, [some voteA, some voteB]⟩⟩

/-- A vote by A (in the set, verifying signature) for the wrong header 8. -/
def vote_wrong : Vote := ⟨1, 1, some ⟨8⟩⟩

/-- A signed header at hash 7 whose commit holds A's vote for hash 8. -/
def sh_wrong : SignedHeader := ⟨⟨"chain"⟩, ⟨⟨7⟩, [some vote_wrong, none]⟩⟩

/-- A signed header whose single precommit is by an unknown signer, for
exercising the length check ahead of the per-precommit checks. -/
def sh_short : SignedHeader := ⟨⟨"chain"⟩, ⟨⟨7⟩, [some voteC]⟩⟩

/-- A signed header with a valid vote by A and a vote by the unknown C. -/
def sh_with_unknown : SignedHeader := ⟨⟨"chain"⟩, ⟨⟨7⟩, [some voteA, some voteC]⟩⟩

/-- A signed header with an empty list of precommits. -/
def sh_empty : SignedHeader := ⟨⟨"chain"⟩, ⟨⟨7⟩, []⟩⟩

/-! ### The claims -/

/-- Claim C1: for every signed header and validator set, if any non-nil
precommit's signer is found in the validator set but its signature does
not verify against that validator's public key and the vote's sign-bytes,
then `voting_power_in` fails with an error of kind
`ImplementationSpecific` and never returns a power value, regardless of
how many other valid votes are present. -/
theorem C1_bad_signature_aborts (C : Crypto) (sh : SignedHeader) (vals : ValidatorSet)
    (v : Vote) (val : Validator)
    (hmem : some v ∈ sh.commit.precommits)
    (hval : vals.validator v.validator_address = some val)
    (hbad : val.verify_signature C ((mk_signed_vote sh.header.chain_id v).sign_bytes C)
      v.signature = false) :
    ∃ e, sh.voting_power_in C vals = .error e ∧ e.kind = Kind.implementationSpecific := by
  have hmem' : some (mk_signed_vote sh.header.chain_id v) ∈ sh.iter :=
    List.mem_map.mpr ⟨some v, hmem, rfl⟩
  obtain ⟨e, he⟩ := voting_power_loop_abort C vals sh.iter 0
    (mk_signed_vote sh.header.chain_id v) val hmem' hval hbad
  exact ⟨e, he, voting_power_loop_err_kind C vals sh.iter 0 e he⟩

/-- Witness for C1: in the set `[A, B]`, the commit
`[Some(vote by A, tampered signature), Some(valid vote by B)]` makes
`voting_power_in` fail with an `ImplementationSpecific` error. -/
theorem C1_witness :
    ∃ e, SignedHeader.voting_power_in sh_tampered sig_one_crypto setAB = .error e ∧
      e.kind = Kind.implementationSpecific :=
  C1_bad_signature_aborts sig_one_crypto sh_tampered setAB voteA_bad valA
    (by decide) (by decide) (by decide)

/-- Counterexample to C2 as stated: with validator set `[A(power=10)]` and
the commit `[Some(vote by A), Some(vote by A)]` (the same valid vote
twice), `voting_power_in` succeeds with 20, which exceeds the set's total
voting power 10. -/
theorem C2_counterexample :
    SignedHeader.voting_power_in sh_dup all_ok_crypto setA = .ok 20 ∧
    ¬ (20 ≤ ValidatorSet.total_power setA) := by
  constructor
  · rfl
  · decide

/-- Claim C2 (amended): provided the non-nil precommits' signer addresses
are pairwise distinct, the value returned by a successful
`voting_power_in` call is a non-negative integer that is at most the sum
of the voting powers of all validators in the given set. -/
theorem C2_bounded (C : Crypto) (sh : SignedHeader) (vals : ValidatorSet) (n : Nat)
    (hnodup : ((sh.commit.precommits.filterMap id).map Vote.validator_address).Nodup)
    (hok : sh.voting_power_in C vals = .ok n) :
    n ≤ vals.total_power := by
  rw [voting_power_in_ok_val C sh vals n hok]
  exact le_trans (Nat.mod_le _ _) (known_power_sum_le_total vals _ hnodup)

/-- Witness for C2: the commit `[Some(valid vote by A), None]` against the
set `[A(10), B(20)]` yields 10, bounded by the total power 30. -/
theorem C2_witness :
    SignedHeader.voting_power_in shAB sig_one_crypto setAB = .ok 10 ∧
    10 ≤ ValidatorSet.total_power setAB :=
  ⟨rfl, C2_bounded sig_one_crypto shAB setAB 10 (by decide) rfl⟩

/-- Counterexample to C3 as stated: two validators with `2 ^ 63` power
each, both voting validly: the `u64` accumulator wraps and
`voting_power_in` returns 0, not the mathematical sum `2 ^ 64` of the
signers' powers. -/
theorem C3_counterexample :
    SignedHeader.voting_power_in sh_huge all_ok_crypto set_huge = .ok 0 ∧
    known_power_sum set_huge sh_huge.commit.precommits ≠ 0 := by
  constructor
  · rfl
  · decide

/-- Claim C3 (amended): for every commit in which every non-nil
precommit's signature verifies correctly against its signer's public key
and every non-nil precommit's signer is present in the given validator
set, `voting_power_in` succeeds and returns the per-vote sum of those
signers' voting powers reduced modulo `2 ^ 64` (hence exactly that sum
whenever it is below `2 ^ 64`, and in particular 0 when there are no
non-nil precommits). -/
theorem C3_exact_sum (C : Crypto) (sh : SignedHeader) (vals : ValidatorSet)
    (_hfound : ∀ v, some v ∈ sh.commit.precommits →
      (vals.validator v.validator_address).isSome = true)
    (hver : ∀ v val, some v ∈ sh.commit.precommits →
      vals.validator v.validator_address = some val →
      val.verify_signature C ((mk_signed_vote sh.header.chain_id v).sign_bytes C)
        v.signature = true) :
    sh.voting_power_in C vals = .ok (known_power_sum vals sh.commit.precommits % U64_MOD) :=
  voting_power_in_ok_char C sh vals hver

/-- Witness for C3: a commit with zero non-nil precommits yields 0 for the
set `[A, B]`. -/
theorem C3_witness :
    SignedHeader.voting_power_in sh_empty sig_one_crypto setAB =
      .ok (known_power_sum setAB sh_empty.commit.precommits % U64_MOD) :=
  C3_exact_sum sig_one_crypto sh_empty setAB
    (fun _ hv => absurd hv (List.not_mem_nil _))
    (fun _ _ hv _ => absurd hv (List.not_mem_nil _))

/-- Claim C4: a non-nil precommit whose signer address is not found in the
validator set contributes exactly 0 power to `voting_power_in`'s total and
does not cause the call to fail; its signature is not inspected. The call
behaves exactly as if that precommit slot were `None`. -/
theorem C4_unknown_signer_skipped (C : Crypto) (hdr : Header) (bid : BlockId)
    (pre suf : List (Option Vote)) (v : Vote) (vals : ValidatorSet)
    (hunk : vals.validator v.validator_address = none) :
    SignedHeader.voting_power_in ⟨hdr, ⟨bid, pre ++ some v :: suf⟩⟩ C vals =
      SignedHeader.voting_power_in ⟨hdr, ⟨bid, pre ++ none :: suf⟩⟩ C vals := by
  unfold SignedHeader.voting_power_in SignedHeader.iter
  simp only [List.map_append, List.map_cons, Option.map_some', Option.map_none']
  exact voting_power_loop_skip_unknown C vals (mk_signed_vote hdr.chain_id v) hunk _ _ 0

/-- Witness for C4: a vote by the unknown address 9 next to a valid vote
by A is treated exactly like an absent vote. -/
theorem C4_witness :
    SignedHeader.voting_power_in ⟨⟨"chain"⟩, ⟨⟨7⟩, [some voteA, some voteC]⟩⟩
        all_ok_crypto setAB =
      SignedHeader.voting_power_in ⟨⟨"chain"⟩, ⟨⟨7⟩, [some voteA, none]⟩⟩
        all_ok_crypto setAB :=
  C4_unknown_signer_skipped all_ok_crypto ⟨"chain"⟩ ⟨7⟩ [some voteA] [] voteC setAB
    (by decide)

/-- Claim C5: whenever `commit.precommits.len() != validator_set.validators().len()`
(including 0 versus N), `validate` fails with the length-mismatch error
naming both lengths — and it does so for every possible content of the
precommits, i.e. before any per-precommit check is performed. -/
theorem C5_length_mismatch (sh : SignedHeader) (vals : ValidatorSet)
    (hlen : sh.commit.precommits.length ≠ vals.validators.length) :
    sh.validate vals = .error ⟨Kind.implementationSpecific,
      some (precommit_length_msg sh.commit.precommits.length vals.validators.length)⟩ := by
  unfold SignedHeader.validate
  rw [if_pos hlen]

/-- Witness for C5: one precommit (and by an unknown signer, which would
trigger `FaultyValidator` if the loop ran) against a two-validator set
fails with the length-mismatch error instead. -/
theorem C5_witness :
    SignedHeader.validate sh_short setAB = .error ⟨Kind.implementationSpecific,
      some (precommit_length_msg sh_short.commit.precommits.length
        setAB.validators.length)⟩ :=
  C5_length_mismatch sh_short setAB (by decide)

/-- Claim C6: with matching lengths, if some non-nil precommit's signer
address is absent from the validator set, all precommits before it pass
the structural checks, and its own header-hash reference (if any) is
correct, then `validate` fails with the distinguished `FaultyValidator`
error carrying exactly that signer's address — a kind distinct from
`ImplementationSpecific`. -/
theorem C6_faulty_validator (sh : SignedHeader) (vals : ValidatorSet)
    (pre suf : List (Option Vote)) (v : Vote)
    (hlen : sh.commit.precommits.length = vals.validators.length)
    (hsplit : sh.commit.precommits = pre ++ some v :: suf)
    (hpre : ∀ w, some w ∈ pre → precommit_ok sh vals w = true)
    (hhash : precommit_hash_ok sh v = true)
    (habsent : vals.validator v.validator_address = none) :
    sh.validate vals = .error ⟨Kind.faultyValidator v.validator_address, none⟩ ∧
    Kind.faultyValidator v.validator_address ≠ Kind.implementationSpecific := by
  constructor
  · rw [validate_eq_loop sh vals hlen, hsplit,
      validate_loop_append_ok sh vals pre _
        (fun w hw => check_precommit_ok sh vals w (hpre w hw))]
    simp only [validate_loop, check_precommit_faulty sh vals v hhash habsent]
  · intro h
    exact Kind.noConfusion h

/-- Witness for C6: `[Some(valid vote by A), Some(vote by C, not in set)]`
against `[A, B]` fails with `FaultyValidator{address: 9}`. -/
theorem C6_witness :
    SignedHeader.validate sh_with_unknown setAB =
      .error ⟨Kind.faultyValidator voteC.validator_address, none⟩ ∧
    Kind.faultyValidator voteC.validator_address ≠ Kind.implementationSpecific :=
  C6_faulty_validator sh_with_unknown setAB [some voteA] [] voteC
    (by decide) (by decide)
    (by
      intro w hw
      injection List.mem_singleton.mp hw with h
      subst h
      decide)
    (by decide) (by decide)

/-- Claim C7: with matching lengths, if any non-nil precommit carries a
referenced header hash different from the signed header's own hash,
`validate` fails — whatever the signer's status — and when all precommits
before it are structurally fine the error is the `ImplementationSpecific`
wrong-header error naming the validator address and both hashes. -/
theorem C7_wrong_header (sh : SignedHeader) (vals : ValidatorSet)
    (pre suf : List (Option Vote)) (v : Vote) (h : Hash)
    (hlen : sh.commit.precommits.length = vals.validators.length)
    (hsplit : sh.commit.precommits = pre ++ some v :: suf)
    (hhh : v.header_hash = some h) (hne : h ≠ sh.header_hash) :
    (∃ e, sh.validate vals = .error e) ∧
    ((∀ w, some w ∈ pre → precommit_ok sh vals w = true) →
      sh.validate vals = .error ⟨Kind.implementationSpecific,
        some (wrong_header_msg v.validator_address h sh.header_hash)⟩) := by
  have hcv := check_precommit_wrong_header sh vals v h hhh hne
  constructor
  · rw [validate_eq_loop sh vals hlen, hsplit]
    exact validate_loop_err_of_mem sh vals _ v _ (by simp) hcv
  · intro hpre
    rw [validate_eq_loop sh vals hlen, hsplit,
      validate_loop_append_ok sh vals pre _
        (fun w hw => check_precommit_ok sh vals w (hpre w hw))]
    simp only [validate_loop, hcv]

/-- Witness for C7: A (a legitimate set member whose signature verifies)
votes for header 8 while the signed header's hash is 7; `validate` fails
with the wrong-header error naming A and both hashes. -/
theorem C7_witness :
    (∃ e, SignedHeader.validate sh_wrong setAB = .error e) ∧
    ((∀ w, some w ∈ ([] : List (Option Vote)) →
        precommit_ok sh_wrong setAB w = true) →
      SignedHeader.validate sh_wrong setAB = .error ⟨Kind.implementationSpecific,
        some (wrong_header_msg vote_wrong.validator_address 8 sh_wrong.header_hash)⟩) :=
  C7_wrong_header sh_wrong setAB [] [none] vote_wrong 8 (by decide) (by decide)
    (by decide) (by decide)

/-- Claim C8: `validate` never performs cryptographic signature
verification: for any two inputs that differ only in the signatures
attached to the precommits (all other fields equal), `validate` returns
the same result. -/
theorem C8_validate_ignores_signatures (sh sh' : SignedHeader) (vals : ValidatorSet)
    (_hhdr : sh.header = sh'.header)
    (hbid : sh.commit.block_id = sh'.commit.block_id)
    (hrel : List.Forall₂ vote_same_except_sig sh.commit.precommits sh'.commit.precommits) :
    sh.validate vals = sh'.validate vals := by
  have hlen := hrel.length_eq
  have hh : sh.header_hash = sh'.header_hash := by
    rw [SignedHeader.header_hash, SignedHeader.header_hash, hbid]
  unfold SignedHeader.validate
  rw [hlen]
  by_cases hc : sh'.commit.precommits.length ≠ vals.validators.length
  · rw [if_pos hc, if_pos hc]
  · rw [if_neg hc, if_neg hc]
    exact validate_loop_sig_irrelevant sh sh' vals hh _ _ hrel

/-- Witness for C8: the commit with A's signature tampered validates
exactly like the untampered one (and both pass). -/
theorem C8_witness :
    SignedHeader.validate sh_tampered setAB = SignedHeader.validate sh_ok setAB ∧
    SignedHeader.validate sh_tampered setAB = .ok () :=
  ⟨C8_validate_ignores_signatures sh_tampered sh_ok setAB rfl rfl
      (List.Forall₂.cons ⟨rfl, rfl⟩ (List.Forall₂.cons ⟨rfl, rfl⟩ List.Forall₂.nil)),
    rfl⟩

/-- Claim C9: `voting_power_in` never checks the commit's length against
the validator set: under a length mismatch it does not fail on account of
the mismatch and still returns the accumulated total over the slots that
are present, provided no known-signer signature fails verification. -/
theorem C9_no_length_check (C : Crypto) (sh : SignedHeader) (vals : ValidatorSet)
    (_hlen : sh.commit.precommits.length ≠ vals.validators.length)
    (hver : ∀ v val, some v ∈ sh.commit.precommits →
      vals.validator v.validator_address = some val →
      val.verify_signature C ((mk_signed_vote sh.header.chain_id v).sign_bytes C)
        v.signature = true) :
    sh.voting_power_in C vals = .ok (known_power_sum vals sh.commit.precommits % U64_MOD) :=
  voting_power_in_ok_char C sh vals hver

/-- Witness for C9: two precommit slots against a one-validator set
(lengths 2 ≠ 1) still succeed with A's 10 power. -/
theorem C9_witness :
    SignedHeader.voting_power_in shAB all_ok_crypto setA =
      .ok (known_power_sum setA shAB.commit.precommits % U64_MOD) :=
  C9_no_length_check all_ok_crypto shAB setA (by decide) (fun _ _ _ _ => rfl)

/-- Claim C10: the running total of `voting_power_in` is a 64-bit unsigned
integer accumulated with native `u64` addition: a successful call returns
the per-vote sum of the counted validators' powers reduced modulo `2 ^ 64`,
and equals the mathematical sum exactly when that sum is below `2 ^ 64`. -/
theorem C10_u64_accumulation (C : Crypto) (sh : SignedHeader) (vals : ValidatorSet)
    (hver : ∀ v val, some v ∈ sh.commit.precommits →
      vals.validator v.validator_address = some val →
      val.verify_signature C ((mk_signed_vote sh.header.chain_id v).sign_bytes C)
        v.signature = true) :
    sh.voting_power_in C vals = .ok (known_power_sum vals sh.commit.precommits % U64_MOD) ∧
    (known_power_sum vals sh.commit.precommits < U64_MOD →
      sh.voting_power_in C vals = .ok (known_power_sum vals sh.commit.precommits)) := by
  have h := voting_power_in_ok_char C sh vals hver
  exact ⟨h, fun hlt => by rw [h, Nat.mod_eq_of_lt hlt]⟩

/-- Witness for C10: for `[Some(valid vote by A), None]` against
`[A(10), B(20)]` the sum 10 is below `2 ^ 64` and is returned exactly. -/
theorem C10_witness :
    SignedHeader.voting_power_in shAB all_ok_crypto setAB =
      .ok (known_power_sum setAB shAB.commit.precommits % U64_MOD) ∧
    (known_power_sum setAB shAB.commit.precommits < U64_MOD →
      SignedHeader.voting_power_in shAB all_ok_crypto setAB =
        .ok (known_power_sum setAB shAB.commit.precommits)) :=
  C10_u64_accumulation all_ok_crypto shAB setAB (fun _ _ _ _ => rfl)

end TendermintLite
